import Mathlib

/-! Formal model of the core of a small C compiler: the type registry
(src/parser/type.c), the System V AMD64 parameter classifier
(src/backend/x86_64/abi.c), the x86-64 instruction encoder
(src/backend/x86_64/instructions.c) and the buffering entry point
parse() of the declaration parser (src/parser/declaration.c).
Definitions follow the C sources; the few collaborator pieces that are
declared outside the sources (register enumeration, N_EIGHTBYTES, the
ELF text-displacement hook) are modelled from the specification and
marked as such. -/

set_option maxHeartbeats 1000000

/-- Eightbyte classes, enum param_class of the ABI classifier. -/
inductive ParamClass where
  | noClass
  | integer
  | sse
  | sseup
  | memory
deriving DecidableEq, Repr

mutual
/-- struct typetree from lacc/typetree.h as used by src/parser/type.c:
a tagged variant.  The stored size field is carried on the constructors
whose C struct carries one (integers and reals carry their width,
pointer size is fixed at 8 by type_init, arrays and aggregates carry a
byte size, a tag's own size field stays 0 because type_tagged_copy does
not copy it).  A tag wraps a struct or union object so qualifiers can
differ from the canonical definition. -/
inductive CType : Type where
  | void : CType
  | signed : Nat → CType
  | unsigned : Nat → CType
  | real : Nat → CType
  | pointer : CType → CType
  | array : CType → Nat → CType
  | func : CType → MemberList → Bool → CType
  | struct : MemberList → Nat → CType
  | union : MemberList → Nat → CType
  | tag : String → CType → CType

/-- Member list {name, type, offset}, owned separately from the type
(struct member_list in type.c). -/
inductive MemberList : Type where
  | nil : MemberList
  | cons : String → CType → Nat → MemberList → MemberList
end

/-- The stored size field of a type (typetree.size). -/
def CType.size : CType → Nat
  | .void => 0
  | .signed n => n
  | .unsigned n => n
  | .real n => n
  | .pointer _ => 8
  | .array _ s => s
  | .func _ _ _ => 0
  | .struct _ s => s
  | .union _ s => s
  | .tag _ _ => 0

/-- unwrapped from type.c: peel one tag indirection. -/
def unwrapped : CType → CType
  | .tag _ u => u
  | t => t

/-- size_of from type.c: a tag forwards to the tagged object's stored
size, every other type reports its own stored size. -/
def size_of (t : CType) : Nat := (unwrapped t).size

/-- is_integer: the C macro tests the type field; a tag carries a copy
of its target's type field, hence the recursion into the target. -/
def is_integer : CType → Bool
  | .signed _ => true
  | .unsigned _ => true
  | .tag _ u => is_integer u
  | _ => false

def is_pointer : CType → Bool
  | .pointer _ => true
  | .tag _ u => is_pointer u
  | _ => false

def is_array : CType → Bool
  | .array _ _ => true
  | .tag _ u => is_array u
  | _ => false

def is_struct : CType → Bool
  | .struct _ _ => true
  | .tag _ u => is_struct u
  | _ => false

def is_union : CType → Bool
  | .union _ _ => true
  | .tag _ u => is_union u
  | _ => false

def is_struct_or_union (t : CType) : Bool := is_struct t || is_union t

def is_function : CType → Bool
  | .func _ _ _ => true
  | _ => false

def is_void : CType → Bool
  | .void => true
  | _ => false

/-- The member list reachable through nmembers/get_member on a type:
tags have a NULL member_list of their own (type_tagged_copy does not
copy it), so the C code always unwraps before member access. -/
def memberListOf : CType → MemberList
  | .struct ms _ => ms
  | .union ms _ => ms
  | .func _ ms _ => ms
  | _ => .nil

mutual
/-- type_alignment from type.c: arrays take element alignment,
structs and unions (also through a tag, whose type field is the copied
struct/union shape) take the maximum member alignment, every other
object type takes its size.  A tag never wraps anything but a struct
or union (asserted by type_tagged_copy); the residual tag equation
mirrors the C default branch reading the tag's own zero size field. -/
def type_alignment : CType → Nat
  | .array elem _ => type_alignment elem
  | .struct ms _ => maxAlignment ms
  | .union ms _ => maxAlignment ms
  | .tag _ (.struct ms _) => maxAlignment ms
  | .tag _ (.union ms _) => maxAlignment ms
  | .tag _ _ => 0
  | t => t.size

/-- The member loop of type_alignment: maximum alignment over a list. -/
def maxAlignment : MemberList → Nat
  | .nil => 0
  | .cons _ ty _ rest => max (type_alignment ty) (maxAlignment rest)
end

/-- The padding step of align_struct_members: round size up to the
next multiple of the alignment (identity when already aligned). -/
def padUp (size a : Nat) : Nat :=
  if size % a = 0 then size else size + (a - size % a)

/-- The member loop of align_struct_members (type.c): walk members in
declaration order, remember the strongest alignment, pad the running
size to each member's alignment, store that as the member's offset and
add the member's size.  Returns the re-laid member list, the running
size and the strongest alignment. -/
def layoutMembers : MemberList → Nat → Nat → MemberList × Nat × Nat
  | .nil, size, maxa => (.nil, size, maxa)
  | .cons nm ty _ rest, size, maxa =>
      let a := type_alignment ty
      let maxa2 := max maxa a
      let off := padUp size a
      let r := layoutMembers rest (off + size_of ty) maxa2
      (.cons nm ty off r.1, r.2)

/-- align_struct_members from type.c: lay the members out and round the
total size up to the strongest member alignment. -/
def align_struct_members (l : MemberList) : MemberList × Nat :=
  let r := layoutMembers l 0 0
  (r.1, padUp r.2.1 r.2.2)

/-- Append one member {name, type, offset} at the end of a list. -/
def appendMember : MemberList → String → CType → Nat → MemberList
  | .nil, nm, ty, off => .cons nm ty off .nil
  | .cons a b c rest, nm, ty, off => .cons a b c (appendMember rest nm ty off)

/-- type_add_member from type.c.  For a struct the whole layout is re-run
after the append; for a union the size becomes the maximum member size
and offsets stay 0; for a function the sentinel name "..." sets the
vararg flag and array parameters decay to pointers.  The remaining
shapes are rejected by an assertion in C and returned unchanged here. -/
def type_add_member (ty : CType) (member_name : String) (member_type : CType) : CType :=
  match ty with
  | .struct ms _ =>
      let r := align_struct_members (appendMember ms member_name member_type 0)
      .struct r.1 r.2
  | .union ms sz =>
      .union (appendMember ms member_name member_type 0) (max sz (size_of member_type))
  | .func ret ms va =>
      if member_name = "..." then .func ret ms true
      else
        let mt := match member_type with
          | .array elem _ => .pointer elem
          | t => t
        .func ret (appendMember ms member_name mt 0) va
  | t => t

/-- A struct built from an empty struct by a sequence of
type_add_member calls, one per (name, type) pair in order. -/
def buildStruct (l : List (String × CType)) : CType :=
  l.foldl (fun t p => type_add_member t p.1 p.2) (CType.struct .nil 0)

/-- Names and types of a member list, forgetting offsets. -/
def sig : MemberList → List (String × CType)
  | .nil => []
  | .cons nm ty _ rest => (nm, ty) :: sig rest

/-- A member list with the given names and types and all offsets 0. -/
def ofSig : List (String × CType) → MemberList
  | [] => .nil
  | (nm, ty) :: rest => .cons nm ty 0 (ofSig rest)

/-! ## ABI classifier (src/backend/x86_64/abi.c) -/

/-- Modelled from the spec: the register enumeration lives in a header
that is not part of the sources; the spec fixes it so that (r-1) % 8
is the 3-bit hardware encoding and r > DI identifies R8..R15, with
XMM0..XMM7 after the GPRs. -/
def AX : Nat := 1
def CX : Nat := 2
def DX : Nat := 3
def BX : Nat := 4
def SP : Nat := 5
def BP : Nat := 6
def SI : Nat := 7
def DI : Nat := 8
def R8 : Nat := 9
def R9 : Nat := 10
def R10 : Nat := 11
def R11 : Nat := 12
def R12 : Nat := 13
def R13 : Nat := 14
def R14 : Nat := 15
def R15 : Nat := 16
def XMM0 : Nat := 17
def XMM7 : Nat := 24

/-- param_int_reg from abi.c line 8: integer argument registers in
allocation order. -/
def param_int_reg : List Nat := [DI, SI, DX, CX, R8, R9]

/-- Modelled from the spec: N_EIGHTBYTES (a macro from a header that is
not part of the sources) is the number of eightbytes covering the type,
ceil(size_of t / 8). -/
def N_EIGHTBYTES (t : CType) : Nat := (size_of t + 7) / 8

/-- The member loop of has_unaligned_fields: member offset modulo the
member's size (the C code checks size, not alignment). -/
def unalignedLoop : MemberList → Bool
  | .nil => false
  | .cons _ ty off rest => (off % size_of ty != 0) || unalignedLoop rest

/-- has_unaligned_fields from abi.c: only inspects the top-level member
list of a struct or union. -/
def has_unaligned_fields (t : CType) : Bool :=
  is_struct_or_union t && unalignedLoop (memberListOf (unwrapped t))

/-- combine from abi.c: merge two eightbyte classes. -/
def combine (a b : ParamClass) : ParamClass :=
  if a = b then a
  else if a = ParamClass.noClass then b
  else if b = ParamClass.noClass then a
  else if a = ParamClass.memory ∨ b = ParamClass.memory then ParamClass.memory
  else if a = ParamClass.integer ∨ b = ParamClass.integer then ParamClass.integer
  else ParamClass.sse

/-- The assignment l[i] = combine(l[i], c) of flatten. -/
def updateClass (l : List ParamClass) (i : Nat) (c : ParamClass) : List ParamClass :=
  l.set i (combine (l.getD i ParamClass.noClass) c)

mutual
/-- flatten from abi.c: depth-first walk contributing each scalar field
to the eightbyte containing its start offset.  The struct/union branch
unwraps one tag indirection before iterating members, exactly as the C
code does; the array branch loops i from 0 to size/elem_size. -/
def flatten (l : List ParamClass) (t : CType) (offset : Nat) : List ParamClass :=
  match t with
  | .real _ => updateClass l (offset / 8) ParamClass.sse
  | .signed _ => updateClass l (offset / 8) ParamClass.integer
  | .unsigned _ => updateClass l (offset / 8) ParamClass.integer
  | .pointer _ => updateClass l (offset / 8) ParamClass.integer
  | .struct ms _ => flattenMembers l ms offset
  | .union ms _ => flattenMembers l ms offset
  | .tag _ (.struct ms _) => flattenMembers l ms offset
  | .tag _ (.union ms _) => flattenMembers l ms offset
  | .array elem sz =>
      (List.range (sz / size_of elem)).foldl
        (fun acc i => flatten acc elem (i * size_of elem + offset)) l
  | _ => l

/-- The member loop of flatten. -/
def flattenMembers (l : List ParamClass) (ms : MemberList) (offset : Nat) : List ParamClass :=
  match ms with
  | .nil => l
  | .cons _ ty moff rest => flattenMembers (flatten l ty (moff + offset)) rest offset
end

/-- merge from abi.c over the full class list (the C caller passes
n = the length of the list): any Memory eightbyte, or more than two
eightbytes whose first is not SSE or with no SSEup, collapses the
classification. -/
def merge (l : List ParamClass) : Bool :=
  l.contains ParamClass.memory ||
    (decide (2 < l.length) &&
      (l.head? != some ParamClass.sse || !(l.contains ParamClass.sseup)))

/-- classify from abi.c. -/
def classify (t : CType) : List ParamClass :=
  if is_integer t || is_pointer t then [ParamClass.integer]
  else if decide (4 < N_EIGHTBYTES t) || has_unaligned_fields t then [ParamClass.memory]
  else if is_struct_or_union t then
    let eb := flatten (List.replicate (N_EIGHTBYTES t) ParamClass.noClass) t 0
    if merge eb then [ParamClass.memory] else eb
  else [ParamClass.memory]

/-- The statement *params[i] = PC_MEMORY of classify_call: only the
first class of the downgraded argument is overwritten. -/
def setHeadMemory : List ParamClass → List ParamClass
  | [] => []
  | _ :: rest => ParamClass.memory :: rest

/-- The return-value classification of classify_call: a void return
gets a single calloc'd PC_NO_CLASS slot. -/
def classify_ret (ret : CType) : List ParamClass :=
  if is_void ret then [ParamClass.noClass] else classify ret

/-- The left-to-right register walk of classify_call.  next counts
integer registers already taken.  An argument whose classification is
not Memory takes its whole eightbyte count if it still fits in the six
integer registers (we also record which register indices it takes, per
the spec's fixed order param_int_reg), otherwise it is downgraded to
Memory and takes none; Memory arguments take none. -/
def allocLoop : List (CType × List ParamClass) → Nat →
    List (List ParamClass × Option (List Nat))
  | [], _ => []
  | (t, p) :: rest, next =>
      if p.head? = some ParamClass.memory then
        (p, none) :: allocLoop rest next
      else
        let chunks := N_EIGHTBYTES t
        if next + chunks ≤ 6 then
          (p, some ((List.range chunks).map (fun k => next + k))) :: allocLoop rest (next + chunks)
        else
          (setHeadMemory p, none) :: allocLoop rest next

/-- classify_call from abi.c: classify every argument and the return
value; a Memory return reserves the first integer register for the
hidden result pointer; then walk the arguments left to right. -/
def classify_call (args : List CType) (ret : CType) :
    List (List ParamClass × Option (List Nat)) × List ParamClass :=
  let res := classify_ret ret
  let start := if ¬ is_void ret ∧ res.head? = some ParamClass.memory then 1 else 0
  (allocLoop (args.map (fun t => (t, classify t))) start, res)

/-- The actual registers each argument occupies: the allocated indices
looked up in param_int_reg. -/
def argRegisters (args : List CType) (ret : CType) : List (Option (List Nat)) :=
  (classify_call args ret).1.map
    (fun pr => pr.2.map (fun idxs => idxs.map (fun i => param_int_reg.getD i 0)))

/-- sym_alignment from abi.c: the symbol's type alignment, bumped to 16
for an array whose alignment is below 16 (the code checks the
alignment, not the size of the array). -/
def sym_alignment (t : CType) : Nat :=
  let align := type_alignment t
  if is_array t ∧ align < 16 then 16 else align

/-! Example types used by the scenario claims. -/

def intT : CType := CType.signed 4
def longT : CType := CType.signed 8
def charT : CType := CType.signed 1
def doubleT : CType := CType.real 8

/-- struct { long a; long b; long c; } built through type_add_member. -/
def S3long : CType := buildStruct [("a", longT), ("b", longT), ("c", longT)]

/-- struct { double x; double y; } built through type_add_member. -/
def S2double : CType := buildStruct [("x", doubleT), ("y", doubleT)]

/-- struct { int a; int b; int c; } built through type_add_member. -/
def S3int : CType := buildStruct [("a", intT), ("b", intT), ("c", intT)]


/-! ## x86-64 instruction encoder (src/backend/x86_64/instructions.c)

Byte sequences are modelled as lists of byte values; the C struct code
{unsigned char val[16]; int len} becomes the list of the first len
bytes.  Relocations registered through elf_add_reloc_text are collected
in a list, and the pending-fixup side of elf_text_displacement (an
external collaborator, modelled from the spec) in another.  A failing C
assert aborts the process; the model returns none there. -/

/-- struct registr {enum reg r; int w}. -/
structure Registr where
  r : Nat
  w : Nat
deriving DecidableEq, Repr

/-- struct address {symbol? sym; int disp; enum reg base; enum reg offset}. -/
structure Address where
  sym : Option String
  disp : Int
  base : Nat
  offset : Nat
deriving DecidableEq, Repr

/-- Memory operand {address addr; int w}. -/
structure MemOp where
  addr : Address
  w : Nat
deriving DecidableEq, Repr

/-- enum immediate type: IMM_INT or IMM_ADDR. -/
inductive ImmKind where
  | int
  | addr
deriving DecidableEq, Repr

/-- struct immediate.  The C union d (byte/word/dword/qword or addr) is
modelled by carrying both views: v is the stored integer value (the C
code only ever stores a value of the declared width, so every union
view denotes it), a is the address view used when type is IMM_ADDR. -/
structure Immediate where
  type : ImmKind
  w : Nat
  v : Int
  a : Address
deriving DecidableEq, Repr

/-- union operand: which member is valid is dictated by the optype. -/
inductive Operand where
  | reg : Registr → Operand
  | mem : MemOp → Operand
  | imm : Immediate → Operand
deriving DecidableEq, Repr

def Operand.asReg : Operand → Option Registr
  | .reg r => some r
  | _ => none

def Operand.asMem : Operand → Option MemOp
  | .mem m => some m
  | _ => none

def Operand.asImm : Operand → Option Immediate
  | .imm i => some i
  | _ => none

/-- enum instr_optype. -/
inductive Optype where
  | none
  | reg
  | mem
  | imm
  | regReg
  | regMem
  | memReg
  | immReg
  | immMem
deriving DecidableEq, Repr

/-- Opcodes dispatched by encode; unknown stands for any enum value the
switch does not list, taking the default branch. -/
inductive Opcode where
  | add | not | mul | xor | div | and | or | shl | shr | sar
  | call | cmp | mov | movsx | movzx | movaps | push | sub | lea
  | leave | repMovsq | ret | jmp | ja | jg | jz | jae | jge
  | setz | seta | setg | setae | setge | test | unknown
deriving DecidableEq, Repr

/-- struct instruction {opcode, optype, source, dest}. -/
structure Instruction where
  opcode : Opcode
  optype : Optype
  source : Operand
  dest : Operand
deriving DecidableEq, Repr

/-- Relocation kinds emitted by the encoder. -/
inductive RelocKind where
  | pc32
  | abs32s
deriving DecidableEq, Repr

/-- One elf_add_reloc_text(sym, kind, offset_in_instr, addend) call. -/
structure Reloc where
  sym : Option String
  kind : RelocKind
  offset : Nat
  addend : Int
deriving DecidableEq, Repr

/-- Result of encoding one instruction: the code bytes, the explicit
relocations, and the pending fixups arranged by elf_text_displacement
for unresolved label symbols (sym, offset_in_instr). -/
structure EncResult where
  bytes : List Nat
  relocs : List Reloc
  fixups : List (String × Nat)
deriving DecidableEq, Repr

/-- REX prefix base 0b0100_0000. -/
def REX : Nat := 0x40

/-- is_64_bit: w >> 3, used both as a truth value and as an addend. -/
def is64w (w : Nat) : Nat := w >>> 3

/-- is_32_bit: (w >> 2) & 1. -/
def is32w (w : Nat) : Nat := (w >>> 2) &&& 1

/-- is_16_bit: (w >> 1) & 1. -/
def is16w (w : Nat) : Nat := (w >>> 1) &&& 1

/-- is_64_bit_reg: register index beyond DI (R8..R15 and XMM). -/
def is_64_bit_reg (r : Nat) : Bool := DI < r

/-- REX.W field: is_64_bit << 3. -/
def Wb (w : Nat) : Nat := is64w w <<< 3

/-- REX.R field: is_64_bit_reg << 2. -/
def Rb (r : Nat) : Nat := (if is_64_bit_reg r then 1 else 0) <<< 2

/-- REX.B field. -/
def Bb (r : Nat) : Nat := if is_64_bit_reg r then 1 else 0

/-- Operand size bit w: ~w & 1 (0 selects the 8-bit form). -/
def wbit (w : Nat) : Nat := 1 - w % 2

/-- reg: (r - 1) % 8, the 3-bit register encoding. -/
def regEnc (r : Nat) : Nat := (r - 1) % 8

def in_byte_range (v : Int) : Bool := -128 ≤ v && v ≤ 127

def in_32bit_range (v : Int) : Bool := -2147483648 ≤ v && v ≤ 2147483647

/-- The n little-endian bytes of the two's-complement representation of
v, as written by the C memcpy from the immediate union. -/
def toBytesLE (n : Nat) (v : Int) : List Nat :=
  (List.range n).map fun i => ((v % ((2 : Int) ^ (8 * n))).toNat >>> (8 * i)) % 256

/-- is_byte_imm from instructions.c (all union views denote v here;
note the final disjunct is unguarded in C exactly as written). -/
def is_byte_imm (imm : Immediate) : Bool :=
  imm.type == ImmKind.int &&
    (imm.w == 1 || (imm.w == 2 && in_byte_range imm.v) ||
      (imm.w == 4 && in_byte_range imm.v) || in_byte_range imm.v)

/-- is_32bit_imm from instructions.c. -/
def is_32bit_imm (imm : Immediate) : Bool :=
  imm.type == ImmKind.int && (decide (imm.w < 8) || in_32bit_range imm.v)

/-- requires_prefix from instructions.c (renamed): an address with a
symbol never needs REX; otherwise an extended base or index register
does. -/
def requires_rex (addr : Address) : Bool :=
  if addr.sym.isSome then false
  else is_64_bit_reg addr.base || is_64_bit_reg addr.offset

/-- encode_sib_addr from instructions.c: append ModR/M, optional
displacement, and (for a RIP-relative symbol) a 4-byte placeholder plus
an R_X86_64_PC32 relocation at the current length.  c is the code
emitted so far for the instruction. -/
def encode_sib_addr (c : List Nat) (rg : Nat) (addr : Address) :
    List Nat × List Reloc :=
  match addr.sym with
  | some s =>
      let c2 := c ++ [((rg &&& 0x7) <<< 3) ||| 0x5]
      (c2 ++ toBytesLE 4 0, [⟨some s, RelocKind.pc32, c2.length, addr.disp⟩])
  | none =>
      let modrm := ((rg &&& 0x7) <<< 3) ||| ((addr.base - 1) % 8)
      if addr.disp ≠ 0 then
        if in_byte_range addr.disp then
          (c ++ [modrm ||| 0x40] ++ toBytesLE 1 addr.disp, [])
        else
          (c ++ [modrm ||| 0x80] ++ toBytesLE 4 addr.disp, [])
      else (c ++ [modrm], [])

/-- nop from instructions.c: single 0x90 byte. -/
def nopCode : EncResult := ⟨[0x90], [], []⟩

/-- mov from instructions.c.  The IMM_REG branch uses the short
0xB8+reg form, except that a 64-bit destination with a 32-bit-range
immediate overwrites it in place with REX.W + 0xC7 /0. -/
def mov (ot : Optype) (a b : Operand) : Option EncResult :=
  match ot with
  | .immReg =>
      match a.asImm, b.asReg with
      | some ai, some br =>
          let pre : List Nat :=
            if is64w br.w ≠ 0 || is_64_bit_reg br.r then [REX ||| Wb br.w ||| Bb br.r] else []
          let opc := 0xB8 ||| (wbit br.w <<< 3) ||| regEnc br.r
          if ai.w = 1 then
            if ai.type = ImmKind.int then some ⟨pre ++ [opc] ++ toBytesLE 1 ai.v, [], []⟩
            else none
          else if ai.w = 2 then
            if ai.type = ImmKind.int then some ⟨pre ++ [opc] ++ toBytesLE 2 ai.v, [], []⟩
            else none
          else if is_32bit_imm ai || ai.type = ImmKind.addr then
            let stem :=
              if is64w br.w ≠ 0 then [REX ||| Wb br.w ||| Bb br.r, 0xC7, 0xC0 ||| regEnc br.r]
              else pre ++ [opc]
            if ai.type = ImmKind.int then some ⟨stem ++ toBytesLE 4 ai.v, [], []⟩
            else some ⟨stem ++ toBytesLE 4 0,
              [⟨ai.a.sym, RelocKind.abs32s, stem.length, ai.a.disp⟩], []⟩
          else
            if ai.w = 8 ∧ ai.type = ImmKind.int then
              some ⟨pre ++ [opc] ++ toBytesLE 8 ai.v, [], []⟩
            else none
      | _, _ => none
  | .regReg =>
      match a.asReg, b.asReg with
      | some ar, some br =>
          if ar.w = br.w then
            some ⟨[REX ||| Wb ar.w ||| Rb ar.r ||| Bb br.r, 0x88 + is64w ar.w,
                   0xC0 ||| (regEnc ar.r <<< 3) ||| regEnc br.r], [], []⟩
          else none
      | _, _ => none
  | .regMem =>
      match a.asReg, b.asMem with
      | some ar, some bm =>
          let pre : List Nat :=
            if is16w ar.w ≠ 0 then [0x66]
            else if is64w ar.w ≠ 0 || is_64_bit_reg ar.r || requires_rex bm.addr then
              [REX ||| Wb ar.w ||| (if is_64_bit_reg bm.addr.base then 1 else 0)]
            else []
          let r := encode_sib_addr (pre ++ [0x88 + wbit ar.w]) (regEnc ar.r) bm.addr
          some ⟨r.1, r.2, []⟩
      | _, _ => none
  | .memReg =>
      match a.asMem, b.asReg with
      | some am, some br =>
          let pre : List Nat :=
            if is64w br.w ≠ 0 || is_64_bit_reg br.r then [REX ||| Wb br.w ||| Rb br.r] else []
          let r := encode_sib_addr (pre ++ [0x8A + wbit br.w]) (regEnc br.r) am.addr
          some ⟨r.1, r.2, []⟩
      | _, _ => none
  | _ => some nopCode

/-- movsx from instructions.c (asserts OPT_MEM_REG). -/
def movsx (ot : Optype) (a b : Operand) : Option EncResult :=
  if ot = Optype.memReg then
    match a.asMem, b.asReg with
    | some am, some br =>
        let pre : List Nat :=
          if is64w br.w ≠ 0 || is_64_bit_reg br.r || is_64_bit_reg am.addr.base then
            [(REX ||| Wb br.w ||| Rb br.r) ||| (if is_64_bit_reg am.addr.base then 1 else 0)]
          else []
        let opc : List Nat :=
          if is32w am.w ≠ 0 ∧ is64w br.w ≠ 0 then [0x63] else [0x0F, 0xBE ||| wbit am.w]
        let r := encode_sib_addr (pre ++ opc) (regEnc br.r) am.addr
        some ⟨r.1, r.2, []⟩
    | _, _ => none
  else none

/-- movzx from instructions.c (REG_REG or MEM_REG, asserted). -/
def movzx (ot : Optype) (a b : Operand) : Option EncResult :=
  match ot with
  | .regReg =>
      match a.asReg, b.asReg with
      | some ar, some br =>
          let pre : List Nat := if is64w br.w ≠ 0 then [REX ||| Wb br.w ||| Rb br.r] else []
          some ⟨pre ++ [0x0F, 0xB6 ||| wbit ar.w,
            0xC0 ||| (regEnc br.r <<< 3) ||| regEnc ar.r], [], []⟩
      | _, _ => none
  | .memReg =>
      match a.asMem, b.asReg with
      | some am, some br =>
          let pre : List Nat := if is64w br.w ≠ 0 then [REX ||| Wb br.w ||| Rb br.r] else []
          let r := encode_sib_addr (pre ++ [0x0F, 0xB6 ||| wbit am.w]) (regEnc br.r) am.addr
          some ⟨r.1, r.2, []⟩
      | _, _ => none
  | _ => none

/-- movaps from instructions.c (asserts OPT_REG_MEM and an XMM source). -/
def movaps (ot : Optype) (a b : Operand) : Option EncResult :=
  if ot = Optype.regMem then
    match a.asReg, b.asMem with
    | some ar, some bm =>
        if XMM0 ≤ ar.r ∧ ar.r ≤ XMM7 then
          let r := encode_sib_addr [0x0F, 0x29] (ar.r - XMM0) bm.addr
          some ⟨r.1, r.2, []⟩
        else none
    | _, _ => none
  else none

/-- push from instructions.c: 0x50+reg for OPT_REG, the nop value for
anything else. -/
def push (ot : Optype) (op : Operand) : Option EncResult :=
  if ot = Optype.reg then
    match op.asReg with
    | some r => some ⟨[0x50 + regEnc r.r], [], []⟩
    | none => none
  else some nopCode

/-- sub from instructions.c (asserts a 64-bit destination for IMM_REG;
an immediate fitting neither byte nor 32-bit range leaves the nop
length 1 with val[0] overwritten by the REX byte, exactly as in C). -/
def sub (ot : Optype) (a b : Operand) : Option EncResult :=
  match ot with
  | .immReg =>
      match a.asImm, b.asReg with
      | some ai, some br =>
          if is64w br.w ≠ 0 then
            let b0 := REX ||| Wb br.w ||| Bb br.r
            let b1 := 0x81 ||| ((if is_byte_imm ai then 1 else 0) <<< 1)
            let b2 := 0xE8 ||| regEnc br.r
            if is_byte_imm ai then some ⟨[b0, b1, b2] ++ toBytesLE 1 ai.v, [], []⟩
            else if is_32bit_imm ai then some ⟨[b0, b1, b2] ++ toBytesLE 4 ai.v, [], []⟩
            else some ⟨[b0], [], []⟩
          else none
      | _, _ => none
  | .regReg =>
      match a.asReg, b.asReg with
      | some ar, some br =>
          let pre : List Nat :=
            if is64w ar.w ≠ 0 then [REX ||| Wb ar.w ||| Rb ar.r ||| Bb br.r] else []
          some ⟨pre ++ [0x28 ||| wbit ar.w, 0xC0 ||| (regEnc ar.r <<< 3) ||| regEnc br.r], [], []⟩
      | _, _ => none
  | _ => none

/-- add from instructions.c: only REG_REG emits bytes; the IMM_REG and
IMM_MEM cases fall through with the initial nop value. -/
def add (ot : Optype) (a b : Operand) : Option EncResult :=
  match ot with
  | .regReg =>
      match a.asReg, b.asReg with
      | some ar, some br =>
          let pre : List Nat :=
            if is64w ar.w ≠ 0 then [REX ||| Wb ar.w ||| Rb ar.r ||| Bb br.r] else []
          some ⟨pre ++ [0x00 ||| wbit ar.w, 0xC0 ||| (regEnc ar.r <<< 3) ||| regEnc br.r], [], []⟩
      | _, _ => none
  | .immReg => some nopCode
  | .immMem => some nopCode
  | _ => none

/-- call from instructions.c: 0xE8 plus a 4-byte placeholder and a PC32
relocation at offset 1 for an address immediate; REX-prefixed 0xFF /2
for an (extended, asserted) register. -/
def call (ot : Optype) (op : Operand) : Option EncResult :=
  match ot with
  | .imm =>
      match op.asImm with
      | some ai =>
          if ai.type = ImmKind.addr ∧ ai.a.sym.isSome then
            some ⟨[0xE8, 0, 0, 0, 0], [⟨ai.a.sym, RelocKind.pc32, 1, ai.a.disp⟩], []⟩
          else none
      | none => none
  | .reg =>
      match op.asReg with
      | some r =>
          if is_64_bit_reg r.r then
            some ⟨[REX ||| wbit r.w, 0xFF, 0xD0 ||| regEnc r.r], [], []⟩
          else none
      | none => none
  | _ => none

/-- cmp from instructions.c (renamed; asserts non-64-bit operands). -/
def enc_cmp (ot : Optype) (a b : Operand) : Option EncResult :=
  match ot with
  | .immReg =>
      match a.asImm, b.asReg with
      | some ai, some br =>
          if is64w br.w = 0 ∧ ¬ is_64_bit_reg br.r then
            if is_byte_imm ai then
              some ⟨[(0x80 ||| wbit br.w) ||| 2, 0xF8 ||| regEnc br.r] ++ toBytesLE 1 ai.v, [], []⟩
            else if ai.w = 4 then
              some ⟨[0x80 ||| wbit br.w, 0xF8 ||| regEnc br.r] ++ toBytesLE 4 ai.v, [], []⟩
            else none
          else none
      | _, _ => none
  | .regReg =>
      match a.asReg, b.asReg with
      | some ar, some br =>
          if ar.w = br.w then
            if is64w ar.w = 0 ∧ ¬ is_64_bit_reg ar.r then
              some ⟨[0x38 ||| wbit ar.w, 0xC0 ||| (regEnc ar.r <<< 3) ||| regEnc br.r], [], []⟩
            else none
          else none
      | _, _ => none
  | _ => none

/-- Modelled from the spec: elf_text_displacement (ELF collaborator,
not in the sources) returns the signed displacement to a symbol with a
resolved text offset, and otherwise returns 0 and arranges a later
fixup at the given instruction offset. -/
def elf_text_displacement (resolve : String → Nat → Option Int) (s : String) (off : Nat) :
    Int × List (String × Nat) :=
  match resolve s off with
  | some d => (d, [])
  | none => (0, [(s, off)])

/-- Condition test field values (enum tttn). -/
def tttnAE : Nat := 0x3
def tttnZ : Nat := 0x4
def tttnA : Nat := 0x7
def tttnGE : Nat := 0xD
def tttnG : Nat := 0xF

/-- jcc from instructions.c: 0x0F 0x80|cond plus the 32-bit
displacement text_displacement(sym) + disp - 4 (asserts OPT_IMM and a
symbol). -/
def jcc (resolve : String → Nat → Option Int) (ot : Optype) (cond : Nat)
    (op : Operand) : Option EncResult :=
  if ot = Optype.imm then
    match op.asImm with
    | some ai =>
        match ai.a.sym with
        | some s =>
            let td := elf_text_displacement resolve s 2
            some ⟨[0x0F, 0x80 ||| cond] ++ toBytesLE 4 (td.1 + ai.a.disp - 4), [], td.2⟩
        | none => none
    | none => none
  else none

/-- jmp from instructions.c: 0xE9 plus the 32-bit displacement
text_displacement(sym) + disp - 4 (asserts OPT_IMM and a symbol). -/
def jmp (resolve : String → Nat → Option Int) (ot : Optype) (op : Operand) :
    Option EncResult :=
  if ot = Optype.imm then
    match op.asImm with
    | some ai =>
        match ai.a.sym with
        | some s =>
            let td := elf_text_displacement resolve s 1
            some ⟨[0xE9] ++ toBytesLE 4 (td.1 + ai.a.disp - 4), [], td.2⟩
        | none => none
    | none => none
  else none

/-- leave: 0xC9. -/
def leaveCode : EncResult := ⟨[0xC9], [], []⟩

/-- rep movsq: F3 REX.W A5. -/
def rep_movsq : EncResult := ⟨[0xF3, REX + 8, 0xA5], [], []⟩

/-- ret (near return): 0xC3. -/
def retCode : EncResult := ⟨[0xC3], [], []⟩

/-- lea from instructions.c (asserts MEM_REG and 64-bit destination). -/
def lea (ot : Optype) (a b : Operand) : Option EncResult :=
  if ot = Optype.memReg then
    match a.asMem, b.asReg with
    | some am, some br =>
        if is64w br.w ≠ 0 then
          let r := encode_sib_addr [REX ||| Wb br.w ||| Rb br.r, 0x8D] (regEnc br.r) am.addr
          some ⟨r.1, r.2, []⟩
        else none
    | _, _ => none
  else none

/-- setcc from instructions.c (asserts OPT_REG, non-64-bit operand). -/
def setcc (ot : Optype) (cond : Nat) (op : Operand) : Option EncResult :=
  if ot = Optype.reg then
    match op.asReg with
    | some r =>
        if is64w r.w = 0 then
          some ⟨[0x0F, 0x90 ||| cond, 0xC0 ||| regEnc r.r], [], []⟩
        else none
    | none => none
  else none

/-- test from instructions.c (renamed; asserts REG_REG, base register). -/
def enc_test (ot : Optype) (a b : Operand) : Option EncResult :=
  if ot = Optype.regReg then
    match a.asReg, b.asReg with
    | some ar, some br =>
        if ¬ is_64_bit_reg ar.r then
          some ⟨[0x84 ||| wbit ar.w, 0xC0 ||| (regEnc ar.r <<< 3) ||| regEnc br.r], [], []⟩
        else none
    | _, _ => none
  else none

/-- not from instructions.c (renamed; asserts OPT_REG): 0xF6 /2. -/
def enc_not (ot : Optype) (op : Operand) : Option EncResult :=
  if ot = Optype.reg then
    match op.asReg with
    | some r =>
        let pre : List Nat :=
          if is_64_bit_reg r.r || 4 < r.w then [REX ||| Wb r.w ||| Bb r.r] else []
        some ⟨pre ++ [0xF6 ||| wbit r.w, 0xD0 ||| regEnc r.r], [], []⟩
    | none => none
  else none

/-- mul from instructions.c: 0xF6 /4 on a register or memory operand. -/
def mul (ot : Optype) (op : Operand) : Option EncResult :=
  match ot with
  | .reg =>
      match op.asReg with
      | some r =>
          let pre : List Nat :=
            if is_64_bit_reg r.r || 4 < r.w then [REX ||| Wb r.w ||| Bb r.r] else []
          some ⟨pre ++ [0xF6 ||| wbit r.w, 0xE0 ||| regEnc r.r], [], []⟩
      | none => none
  | .mem =>
      match op.asMem with
      | some m =>
          let pre : List Nat :=
            if 4 < m.w then [REX ||| Wb m.w ||| (if is_64_bit_reg m.addr.base then 1 else 0)]
            else []
          let rr := encode_sib_addr (pre ++ [0xF6 ||| wbit m.w]) 0x4 m.addr
          some ⟨rr.1, rr.2, []⟩
      | none => none
  | _ => none

/-- encode_div from instructions.c: 0xF6 /6 on a register or memory
operand. -/
def enc_div (ot : Optype) (op : Operand) : Option EncResult :=
  match ot with
  | .reg =>
      match op.asReg with
      | some r =>
          let pre : List Nat :=
            if is_64_bit_reg r.r || 4 < r.w then [REX ||| Wb r.w ||| Bb r.r] else []
          some ⟨pre ++ [0xF6 ||| wbit r.w, 0xF0 ||| regEnc r.r], [], []⟩
      | none => none
  | .mem =>
      match op.asMem with
      | some m =>
          let pre : List Nat :=
            if 4 < m.w then [REX ||| Wb m.w ||| (if is_64_bit_reg m.addr.base then 1 else 0)]
            else []
          let rr := encode_sib_addr (pre ++ [0xF6 ||| wbit m.w]) 0x6 m.addr
          some ⟨rr.1, rr.2, []⟩
      | none => none
  | _ => none

/-- basic_register_only_encode from instructions.c. -/
def basic_register_only_encode (opcode : Nat) (a b : Registr) : EncResult :=
  let pre : List Nat :=
    if is_64_bit_reg a.r || 4 < a.w then [REX ||| Wb a.w ||| Rb a.r ||| Bb b.r] else []
  ⟨pre ++ [opcode ||| wbit a.w, 0xC0 ||| (regEnc a.r <<< 3) ||| regEnc b.r], [], []⟩

/-- xor from instructions.c (renamed; asserts REG_REG): opcode 0x30. -/
def enc_xor (ot : Optype) (a b : Operand) : Option EncResult :=
  if ot = Optype.regReg then
    match a.asReg, b.asReg with
    | some ar, some br => some (basic_register_only_encode 0x30 ar br)
    | _, _ => none
  else none

/-- and from instructions.c (renamed; asserts REG_REG): opcode 0x20. -/
def enc_and (ot : Optype) (a b : Operand) : Option EncResult :=
  if ot = Optype.regReg then
    match a.asReg, b.asReg with
    | some ar, some br => some (basic_register_only_encode 0x20 ar br)
    | _, _ => none
  else none

/-- or from instructions.c (renamed; asserts REG_REG): opcode 0x08. -/
def enc_or (ot : Optype) (a b : Operand) : Option EncResult :=
  if ot = Optype.regReg then
    match a.asReg, b.asReg with
    | some ar, some br => some (basic_register_only_encode 0x08 ar br)
    | _, _ => none
  else none

/-- shl from instructions.c (asserts REG_REG and the CL source):
0xD2 /4. -/
def shl (ot : Optype) (a b : Operand) : Option EncResult :=
  if ot = Optype.regReg then
    match a.asReg, b.asReg with
    | some ar, some br =>
        if ar.r = CX ∧ ar.w = 1 then
          let pre : List Nat :=
            if is_64_bit_reg br.r || 4 < br.w then [REX ||| Wb br.w ||| Bb br.r] else []
          some ⟨pre ++ [0xD2 ||| wbit br.w, 0xE0 ||| regEnc br.r], [], []⟩
        else none
    | _, _ => none
  else none

/-- shr from instructions.c (asserts REG_REG and the CL source): the
source emits ModR/M extension /7, bytes 0xD2|w then 0xF8|reg. -/
def shr (ot : Optype) (a b : Operand) : Option EncResult :=
  if ot = Optype.regReg then
    match a.asReg, b.asReg with
    | some ar, some br =>
        if ar.r = CX ∧ ar.w = 1 then
          let pre : List Nat :=
            if is_64_bit_reg br.r || 4 < br.w then [REX ||| Wb br.w ||| Bb br.r] else []
          some ⟨pre ++ [0xD2 ||| wbit br.w, 0xF8 ||| regEnc br.r], [], []⟩
        else none
    | _, _ => none
  else none

/-- sar from instructions.c (asserts REG_REG and the CL source): the
source emits ModR/M extension /7, bytes 0xD2|w then 0xF8|reg, exactly
the same bytes as shr. -/
def sar (ot : Optype) (a b : Operand) : Option EncResult :=
  if ot = Optype.regReg then
    match a.asReg, b.asReg with
    | some ar, some br =>
        if ar.r = CX ∧ ar.w = 1 then
          let pre : List Nat :=
            if is_64_bit_reg br.r || 4 < br.w then [REX ||| Wb br.w ||| Bb br.r] else []
          some ⟨pre ++ [0xD2 ||| wbit br.w, 0xF8 ||| regEnc br.r], [], []⟩
        else none
    | _, _ => none
  else none

/-- encode from instructions.c: dispatch on the opcode; opcodes outside
the switch produce the single-byte NOP. -/
def encode (resolve : String → Nat → Option Int) (i : Instruction) : Option EncResult :=
  match i.opcode with
  | .add => add i.optype i.source i.dest
  | .not => enc_not i.optype i.source
  | .mul => mul i.optype i.source
  | .xor => enc_xor i.optype i.source i.dest
  | .div => enc_div i.optype i.source
  | .and => enc_and i.optype i.source i.dest
  | .or => enc_or i.optype i.source i.dest
  | .shl => shl i.optype i.source i.dest
  | .shr => shr i.optype i.source i.dest
  | .sar => sar i.optype i.source i.dest
  | .call => call i.optype i.source
  | .cmp => enc_cmp i.optype i.source i.dest
  | .mov => mov i.optype i.source i.dest
  | .movsx => movsx i.optype i.source i.dest
  | .movzx => movzx i.optype i.source i.dest
  | .movaps => movaps i.optype i.source i.dest
  | .push => push i.optype i.source
  | .sub => sub i.optype i.source i.dest
  | .lea => lea i.optype i.source i.dest
  | .leave => some leaveCode
  | .repMovsq => if i.optype = Optype.none then some rep_movsq else none
  | .ret => some retCode
  | .jmp => jmp resolve i.optype i.source
  | .ja => jcc resolve i.optype tttnA i.source
  | .jg => jcc resolve i.optype tttnG i.source
  | .jz => jcc resolve i.optype tttnZ i.source
  | .jae => jcc resolve i.optype tttnAE i.source
  | .jge => jcc resolve i.optype tttnGE i.source
  | .setz => setcc i.optype tttnZ i.source
  | .seta => setcc i.optype tttnA i.source
  | .setg => setcc i.optype tttnG i.source
  | .setae => setcc i.optype tttnAE i.source
  | .setge => setcc i.optype tttnGE i.source
  | .test => enc_test i.optype i.source i.dest
  | .unknown => some nopCode

/-- An immediate integer of the given width (no address view). -/
def immInt (w : Nat) (v : Int) : Operand :=
  Operand.imm ⟨ImmKind.int, w, v, ⟨none, 0, 0, 0⟩⟩

/-- An address immediate against a symbol with displacement. -/
def immAddr (s : String) (disp : Int) : Operand :=
  Operand.imm ⟨ImmKind.addr, 8, 0, ⟨some s, disp, 0, 0⟩⟩

/-- A register operand. -/
def regOp (r w : Nat) : Operand := Operand.reg ⟨r, w⟩

/-- A resolver with no resolved symbols: every label is still
forward-declared. -/
def noResolve : String → Nat → Option Int := fun _ _ => none

/-! ## Declaration parser pieces (src/parser/declaration.c) -/

/-- The array branch loop of object_initializer for an incomplete
array (type->size == 0, always-true loop condition): initializer item
i is stored at filled + i*elem_size; after an item the loop continues
only if a comma follows and the next token is not the closing brace,
so a trailing comma changes nothing.  Returns the emitted stores and
the final loop index i (the index of the last item). -/
def array_initializer_loop (filled elem_size : Nat) :
    Nat → List Int → List (Nat × Int) × Nat
  | i, [] => ([], i)
  | i, [x] => ([(filled + i * elem_size, x)], i)
  | i, x :: xs =>
      let r := array_initializer_loop filled elem_size (i + 1) xs
      ((filled + i * elem_size, x) :: r.1, r.2)

/-- object_initializer's T_ARRAY case for an incomplete array of a
scalar element type: emit one store per initializer item and complete
the symbol's array type to (i + 1) * size_of(elem) where i is the last
index (declaration.c lines 690-716). -/
def object_initializer_incomplete_array (elem : CType) (filled : Nat)
    (items : List Int) : List (Nat × Int) × CType :=
  let r := array_initializer_loop filled (size_of elem) 0 items
  (r.1, CType.array elem ((r.2 + 1) * size_of elem))

/-- A translation-unit definition as returned by parse(): the symbol
(null only for the all-zero sentinel), with the parameter, local and
node lists that clear_definition frees. -/
structure CDefinition where
  symbol : Option String
  params : List String
  locals : List String
  nodes : Nat
deriving DecidableEq, Repr

/-- The all-zero definition struct definition def = {0}. -/
def emptyDefinition : CDefinition := ⟨none, [], [], 0⟩

/-- parse() from declaration.c, at the point where the declaration loop
has finished (the loop body never runs when the next token is END, so
an exhausted stream leaves the buffer as it was): if definitions are
buffered, return the next one and drop it from the buffer; otherwise
return the all-zero definition.  The buffer models defs.def[cur..len). -/
def parse (buffer : List CDefinition) : CDefinition × List CDefinition :=
  match buffer with
  | [] => (emptyDefinition, [])
  | d :: rest => (d, rest)

/-- The layout invariant for a laid-out member list starting after
prevEnd bytes: each member sits at or after the previous end, at an
offset aligned to its own alignment, with less than one alignment unit
of padding (minimal padding), in declaration order. -/
def wellLaid : MemberList → Nat → Prop
  | .nil, _ => True
  | .cons _ ty off rest, prevEnd =>
      prevEnd ≤ off ∧ off % type_alignment ty = 0 ∧
        off < prevEnd + type_alignment ty ∧ wellLaid rest (off + size_of ty)

/-- The safety bound: at most 15 code bytes (the buffer holds 16) and
at most one relocation or pending fixup per instruction. -/
def Bounded (res : EncResult) : Prop :=
  res.bytes.length ≤ 15 ∧ res.relocs.length + res.fixups.length ≤ 1

/-- A JMP to the forward-declared label L: an address immediate with
displacement 0 (the dest operand is unused by the jmp builder). -/
def jmpInstrL : Instruction :=
  ⟨Opcode.jmp, Optype.imm, immAddr "L" 0, regOp AX 8⟩

/-! ## Helper lemmas -/

theorem padUp_le (s a : Nat) : s ≤ padUp s a := by
  unfold padUp
  split
  · exact Nat.le_refl s
  · omega

theorem padUp_lt (s a : Nat) (ha : 0 < a) : padUp s a < s + a := by
  unfold padUp
  by_cases h : s % a = 0
  · simp [h]
    omega
  · simp only [h, if_false]
    have h1 : s % a < a := Nat.mod_lt s ha
    omega

theorem padUp_mod (s a : Nat) (ha : 0 < a) : padUp s a % a = 0 := by
  unfold padUp
  by_cases h : s % a = 0
  · simp [h]
  · simp only [h, if_false]
    have h1 : s % a < a := Nat.mod_lt s ha
    have h0 : s % a ≤ s := Nat.mod_le s a
    have h2 : s + (a - s % a) = (s - s % a) + a := by omega
    rw [h2, Nat.add_mod_right]
    have h3 : s - s % a = a * (s / a) := by
      have h4 := Nat.div_add_mod s a
      omega
    rw [h3]
    exact Nat.mul_mod_right a (s / a)

/-- Structural induction on a member list alone (the default recursor
of the mutual family has several motives, which the induction tactic
does not accept). -/
@[induction_eliminator]
theorem MemberList.inductionOn {motive : MemberList → Prop}
    (nil : motive .nil)
    (cons : ∀ (a : String) (b : CType) (c : Nat) rest,
      motive rest → motive (.cons a b c rest)) :
    ∀ ms, motive ms
  | .nil => nil
  | .cons a b c rest => cons a b c rest (MemberList.inductionOn nil cons rest)

theorem sig_appendMember (ms : MemberList) (nm : String) (ty : CType) (off : Nat) :
    sig (appendMember ms nm ty off) = sig ms ++ [(nm, ty)] := by
  induction ms with
  | nil => rfl
  | cons a b c rest ih => simp [appendMember, sig, ih]

theorem sig_ofSig (l : List (String × CType)) : sig (ofSig l) = l := by
  induction l with
  | nil => rfl
  | cons p rest ih => cases p; simp [ofSig, sig, ih]

theorem layoutMembers_congr (ms1 ms2 : MemberList) (h : sig ms1 = sig ms2) :
    ∀ s m, layoutMembers ms1 s m = layoutMembers ms2 s m := by
  induction ms1 generalizing ms2 with
  | nil =>
      cases ms2 with
      | nil => intro s m; rfl
      | cons a b c rest => simp [sig] at h
  | cons a b c rest ih =>
      cases ms2 with
      | nil => simp [sig] at h
      | cons a2 b2 c2 rest2 =>
          simp [sig] at h
          obtain ⟨⟨h1, h2⟩, h3⟩ := h
          intro s m
          subst h1; subst h2
          simp [layoutMembers, ih rest2 h3]

theorem sig_layoutMembers (ms : MemberList) :
    ∀ s m, sig (layoutMembers ms s m).1 = sig ms := by
  induction ms with
  | nil => intro s m; rfl
  | cons a b c rest ih => intro s m; simp [layoutMembers, sig, ih]

theorem maxAlignment_sig (ms1 ms2 : MemberList) (h : sig ms1 = sig ms2) :
    maxAlignment ms1 = maxAlignment ms2 := by
  induction ms1 generalizing ms2 with
  | nil =>
      cases ms2 with
      | nil => rfl
      | cons a b c rest => simp [sig] at h
  | cons a b c rest ih =>
      cases ms2 with
      | nil => simp [sig] at h
      | cons a2 b2 c2 rest2 =>
          simp [sig] at h
          obtain ⟨⟨h1, h2⟩, h3⟩ := h
          subst h1; subst h2
          simp [maxAlignment, ih rest2 h3]

theorem layoutMembers_maxa (ms : MemberList) :
    ∀ s m, (layoutMembers ms s m).2.2 = max m (maxAlignment ms) := by
  induction ms with
  | nil => intro s m; simp [layoutMembers, maxAlignment]
  | cons a b c rest ih =>
      intro s m
      simp [layoutMembers, maxAlignment, ih]
      rw [← Nat.max_assoc]

theorem layoutMembers_wellLaid (ms : MemberList)
    (hpos : ∀ p ∈ sig ms, 0 < type_alignment p.2) :
    ∀ s m, wellLaid (layoutMembers ms s m).1 s := by
  induction ms with
  | nil => intro s m; trivial
  | cons a b c rest ih =>
      intro s m
      have hb : 0 < type_alignment b := hpos (a, b) (by simp [sig])
      have hrest : ∀ p ∈ sig rest, 0 < type_alignment p.2 := by
        intro p hp
        exact hpos p (by simp [sig, hp])
      simp only [layoutMembers, wellLaid]
      exact ⟨padUp_le s (type_alignment b), padUp_mod s (type_alignment b) hb,
        padUp_lt s (type_alignment b) hb, ih hrest _ _⟩

theorem maxAlignment_pos (ms : MemberList) (hne : sig ms ≠ [])
    (hpos : ∀ p ∈ sig ms, 0 < type_alignment p.2) : 0 < maxAlignment ms := by
  cases ms with
  | nil => simp [sig] at hne
  | cons a b c rest =>
      have hb : 0 < type_alignment b := hpos (a, b) (by simp [sig])
      simp [maxAlignment]
      omega

theorem align_struct_members_congr (ms1 ms2 : MemberList) (h : sig ms1 = sig ms2) :
    align_struct_members ms1 = align_struct_members ms2 := by
  unfold align_struct_members
  rw [layoutMembers_congr ms1 ms2 h 0 0]

theorem buildStruct_eq (l : List (String × CType)) :
    buildStruct l =
      CType.struct (align_struct_members (ofSig l)).1 (align_struct_members (ofSig l)).2 := by
  induction l using List.reverseRecOn with
  | nil => rfl
  | append_singleton xs p ih =>
      have step : buildStruct (xs ++ [p]) = type_add_member (buildStruct xs) p.1 p.2 := by
        simp [buildStruct, List.foldl_append]
      rw [step, ih]
      show CType.struct _ _ = _
      have hsig : sig (appendMember (align_struct_members (ofSig xs)).1 p.1 p.2 0) =
          sig (ofSig (xs ++ [p])) := by
        rw [sig_appendMember, sig_ofSig]
        unfold align_struct_members
        rw [sig_layoutMembers, sig_ofSig]
      rw [align_struct_members_congr _ _ hsig]

theorem updateClass_length (l : List ParamClass) (i : Nat) (c : ParamClass) :
    (updateClass l i c).length = l.length := by
  simp [updateClass]

theorem foldl_flatten_length (elem : CType)
    (H : ∀ (l : List ParamClass) (off : Nat), (flatten l elem off).length = l.length) :
    ∀ (xs : List Nat) (l : List ParamClass) (es off : Nat),
      ((xs.foldl (fun acc i => flatten acc elem (i * es + off)) l)).length = l.length := by
  intro xs
  induction xs with
  | nil => intro l es off; rfl
  | cons x xs ih =>
      intro l es off
      rw [List.foldl_cons, ih, H]

mutual
theorem flatten_length (l : List ParamClass) (t : CType) (off : Nat) :
    (flatten l t off).length = l.length := by
  cases t with
  | void => simp [flatten]
  | signed n => rw [flatten]; exact updateClass_length ..
  | unsigned n => rw [flatten]; exact updateClass_length ..
  | real n => rw [flatten]; exact updateClass_length ..
  | pointer u => rw [flatten]; exact updateClass_length ..
  | func r ms v => simp [flatten]
  | struct ms sz => rw [flatten]; exact flattenMembers_length l ms off
  | union ms sz => rw [flatten]; exact flattenMembers_length l ms off
  | array elem sz =>
      rw [flatten]
      exact foldl_flatten_length elem (fun l o => flatten_length l elem o) _ l _ _
  | tag nm u =>
      cases u with
      | struct ms sz => rw [flatten]; exact flattenMembers_length l ms off
      | union ms sz => rw [flatten]; exact flattenMembers_length l ms off
      | void => simp [flatten]
      | signed n => simp [flatten]
      | unsigned n => simp [flatten]
      | real n => simp [flatten]
      | pointer v => simp [flatten]
      | array e s => simp [flatten]
      | func r ms v => simp [flatten]
      | tag nm2 u2 => simp [flatten]

theorem flattenMembers_length (l : List ParamClass) (ms : MemberList) (off : Nat) :
    (flattenMembers l ms off).length = l.length := by
  cases ms with
  | nil => rw [flattenMembers]
  | cons nm ty moff rest =>
      rw [flattenMembers]
      rw [flattenMembers_length, flatten_length]
end

/-- The classify branch structure: if the head class is not Memory the
slot count is N_EIGHTBYTES. -/
theorem classify_length (t : CType)
    (hs : (is_integer t || is_pointer t) = true → 1 ≤ size_of t ∧ size_of t ≤ 8)
    (h : (classify t).head? ≠ some ParamClass.memory) :
    (classify t).length = N_EIGHTBYTES t := by
  unfold classify at h ⊢
  by_cases h1 : (is_integer t || is_pointer t) = true
  · rw [if_pos h1] at h ⊢
    obtain ⟨ha, hb⟩ := hs h1
    simp only [List.length_cons, List.length_nil, N_EIGHTBYTES]
    omega
  · rw [if_neg h1] at h ⊢
    by_cases h2 : (decide (4 < N_EIGHTBYTES t) || has_unaligned_fields t) = true
    · rw [if_pos h2] at h
      simp at h
    · rw [if_neg h2] at h ⊢
      by_cases h3 : is_struct_or_union t = true
      · rw [if_pos h3] at h ⊢
        by_cases h4 :
            merge (flatten (List.replicate (N_EIGHTBYTES t) ParamClass.noClass) t 0) = true
        · simp only [h4, if_true] at h
          simp at h
        · simp only [h4, Bool.false_eq_true, if_false] at h ⊢
          rw [flatten_length, List.length_replicate]
      · rw [if_neg h3] at h
        simp at h

/-! ## Bounds on the encoder output (claim C9 support) -/

theorem toBytesLE_length (n : Nat) (v : Int) : (toBytesLE n v).length = n := by
  simp [toBytesLE]

theorem encode_sib_addr_len (c : List Nat) (rg : Nat) (addr : Address) :
    (encode_sib_addr c rg addr).1.length ≤ c.length + 5 ∧
      (encode_sib_addr c rg addr).2.length ≤ 1 := by
  unfold encode_sib_addr
  cases h : addr.sym with
  | some s => simp [toBytesLE_length]
  | none => split_ifs with h1 h2 <;> simp [toBytesLE_length]

theorem sib_result_bounded (c : List Nat) (rg : Nat) (addr : Address) (hc : c.length ≤ 4) :
    Bounded ⟨(encode_sib_addr c rg addr).1, (encode_sib_addr c rg addr).2, []⟩ := by
  obtain ⟨h1, h2⟩ := encode_sib_addr_len c rg addr
  refine ⟨?_, ?_⟩
  · show (encode_sib_addr c rg addr).1.length ≤ 15
    omega
  · show (encode_sib_addr c rg addr).2.length + ([] : List (String × Nat)).length ≤ 1
    simp only [List.length_nil]
    omega

theorem nop_bounded : Bounded nopCode := by
  refine ⟨?_, ?_⟩ <;> simp [nopCode]

theorem elf_text_displacement_fixups (resolve : String → Nat → Option Int)
    (s : String) (off : Nat) :
    (elf_text_displacement resolve s off).2.length ≤ 1 := by
  unfold elf_text_displacement
  cases resolve s off <;> simp

theorem mov_bounded (ot : Optype) (a b : Operand) (res : EncResult)
    (h : mov ot a b = some res) : Bounded res := by
  unfold mov at h
  cases ot <;>
    first
      | (injection h with h; subst h; exact nop_bounded)
      | skip
  case immReg =>
    cases ha : a.asImm with
    | none => simp [ha] at h
    | some ai =>
      cases hb : b.asReg with
      | none => simp [ha, hb] at h
      | some br =>
        simp only [ha, hb] at h
        split_ifs at h
        all_goals
          first
            | exact (Option.noConfusion h)
            | (injection h with h
               subst h
               refine ⟨?_, ?_⟩ <;> (try simp [toBytesLE_length]) <;> (try omega))
  case regReg =>
    cases ha : a.asReg with
    | none => simp [ha] at h
    | some ar =>
      cases hb : b.asReg with
      | none => simp [ha, hb] at h
      | some br =>
        simp only [ha, hb] at h
        split_ifs at h
        all_goals
          first
            | exact (Option.noConfusion h)
            | (injection h with h
               subst h
               refine ⟨?_, ?_⟩ <;> simp)
  case regMem =>
    cases ha : a.asReg with
    | none => simp [ha] at h
    | some ar =>
      cases hb : b.asMem with
      | none => simp [ha, hb] at h
      | some bm =>
        simp only [ha, hb] at h
        injection h with h
        subst h
        exact sib_result_bounded _ _ _ (by split_ifs <;> simp)
  case memReg =>
    cases ha : a.asMem with
    | none => simp [ha] at h
    | some am =>
      cases hb : b.asReg with
      | none => simp [ha, hb] at h
      | some br =>
        simp only [ha, hb] at h
        injection h with h
        subst h
        exact sib_result_bounded _ _ _ (by split_ifs <;> simp)

theorem movsx_bounded (ot : Optype) (a b : Operand) (res : EncResult)
    (h : movsx ot a b = some res) : Bounded res := by
  unfold movsx at h
  split_ifs at h
  · cases ha : a.asMem with
    | none => simp [ha] at h
    | some am =>
      cases hb : b.asReg with
      | none => simp [ha, hb] at h
      | some br =>
        simp only [ha, hb] at h
        injection h with h
        subst h
        exact sib_result_bounded _ _ _ (by split_ifs <;> simp)

theorem movzx_bounded (ot : Optype) (a b : Operand) (res : EncResult)
    (h : movzx ot a b = some res) : Bounded res := by
  unfold movzx at h
  cases ot <;> first | exact Option.noConfusion h | skip
  case regReg =>
    cases ha : a.asReg with
    | none => simp [ha] at h
    | some ar =>
      cases hb : b.asReg with
      | none => simp [ha, hb] at h
      | some br =>
        simp only [ha, hb] at h
        injection h with h
        subst h
        refine ⟨?_, ?_⟩ <;> (try split_ifs) <;> simp
  case memReg =>
    cases ha : a.asMem with
    | none => simp [ha] at h
    | some am =>
      cases hb : b.asReg with
      | none => simp [ha, hb] at h
      | some br =>
        simp only [ha, hb] at h
        injection h with h
        subst h
        exact sib_result_bounded _ _ _ (by split_ifs <;> simp)

theorem movaps_bounded (ot : Optype) (a b : Operand) (res : EncResult)
    (h : movaps ot a b = some res) : Bounded res := by
  unfold movaps at h
  split_ifs at h
  · cases ha : a.asReg with
    | none => simp [ha] at h
    | some ar =>
      cases hb : b.asMem with
      | none => simp [ha, hb] at h
      | some bm =>
        simp only [ha, hb] at h
        split_ifs at h
        · injection h with h
          subst h
          exact sib_result_bounded _ _ _ (by simp)

theorem push_bounded (ot : Optype) (op : Operand) (res : EncResult)
    (h : push ot op = some res) : Bounded res := by
  unfold push at h
  split_ifs at h
  · cases hr : op.asReg with
    | none => simp [hr] at h
    | some r =>
      simp only [hr] at h
      injection h with h
      subst h
      refine ⟨?_, ?_⟩ <;> simp
  · injection h with h
    subst h
    exact nop_bounded

theorem sub_bounded (ot : Optype) (a b : Operand) (res : EncResult)
    (h : sub ot a b = some res) : Bounded res := by
  unfold sub at h
  cases ot <;> first | exact Option.noConfusion h | skip
  case immReg =>
    cases ha : a.asImm with
    | none => simp [ha] at h
    | some ai =>
      cases hb : b.asReg with
      | none => simp [ha, hb] at h
      | some br =>
        simp only [ha, hb] at h
        split_ifs at h
        all_goals
          first
            | exact (Option.noConfusion h)
            | (injection h with h
               subst h
               refine ⟨?_, ?_⟩ <;> (try simp [toBytesLE_length]) <;> (try omega))
  case regReg =>
    cases ha : a.asReg with
    | none => simp [ha] at h
    | some ar =>
      cases hb : b.asReg with
      | none => simp [ha, hb] at h
      | some br =>
        simp only [ha, hb] at h
        injection h with h
        subst h
        refine ⟨?_, ?_⟩ <;> (try split_ifs) <;> simp

theorem add_bounded (ot : Optype) (a b : Operand) (res : EncResult)
    (h : add ot a b = some res) : Bounded res := by
  unfold add at h
  cases ot <;>
    first
      | exact Option.noConfusion h
      | (injection h with h; subst h; exact nop_bounded)
      | skip
  case regReg =>
    cases ha : a.asReg with
    | none => simp [ha] at h
    | some ar =>
      cases hb : b.asReg with
      | none => simp [ha, hb] at h
      | some br =>
        simp only [ha, hb] at h
        injection h with h
        subst h
        refine ⟨?_, ?_⟩ <;> (try split_ifs) <;> simp

theorem call_bounded (ot : Optype) (op : Operand) (res : EncResult)
    (h : call ot op = some res) : Bounded res := by
  unfold call at h
  cases ot <;> first | exact Option.noConfusion h | skip
  case imm =>
    cases ha : op.asImm with
    | none => simp [ha] at h
    | some ai =>
      simp only [ha] at h
      split_ifs at h
      · injection h with h
        subst h
        refine ⟨?_, ?_⟩ <;> simp
  case reg =>
    cases hr : op.asReg with
    | none => simp [hr] at h
    | some r =>
      simp only [hr] at h
      split_ifs at h
      · injection h with h
        subst h
        refine ⟨?_, ?_⟩ <;> simp

theorem enc_cmp_bounded (ot : Optype) (a b : Operand) (res : EncResult)
    (h : enc_cmp ot a b = some res) : Bounded res := by
  unfold enc_cmp at h
  cases ot <;> first | exact Option.noConfusion h | skip
  case immReg =>
    cases ha : a.asImm with
    | none => simp [ha] at h
    | some ai =>
      cases hb : b.asReg with
      | none => simp [ha, hb] at h
      | some br =>
        simp only [ha, hb] at h
        split_ifs at h
        all_goals
          first
            | exact (Option.noConfusion h)
            | (injection h with h
               subst h
               refine ⟨?_, ?_⟩ <;> (try simp [toBytesLE_length]) <;> (try omega))
  case regReg =>
    cases ha : a.asReg with
    | none => simp [ha] at h
    | some ar =>
      cases hb : b.asReg with
      | none => simp [ha, hb] at h
      | some br =>
        simp only [ha, hb] at h
        split_ifs at h
        all_goals
          first
            | exact (Option.noConfusion h)
            | (injection h with h
               subst h
               refine ⟨?_, ?_⟩ <;> simp)

theorem jcc_bounded (resolve : String → Nat → Option Int) (ot : Optype) (cond : Nat)
    (op : Operand) (res : EncResult) (h : jcc resolve ot cond op = some res) : Bounded res := by
  unfold jcc at h
  split_ifs at h
  · cases ha : op.asImm with
    | none => simp [ha] at h
    | some ai =>
      simp only [ha] at h
      cases hs : ai.a.sym with
      | none => simp [hs] at h
      | some s =>
        simp only [hs] at h
        injection h with h
        subst h
        refine ⟨?_, ?_⟩
        · simp [toBytesLE_length]
        · have := elf_text_displacement_fixups resolve s 2
          simp only [List.length_nil, Nat.zero_add]
          exact this

theorem jmp_bounded (resolve : String → Nat → Option Int) (ot : Optype)
    (op : Operand) (res : EncResult) (h : jmp resolve ot op = some res) : Bounded res := by
  unfold jmp at h
  split_ifs at h
  · cases ha : op.asImm with
    | none => simp [ha] at h
    | some ai =>
      simp only [ha] at h
      cases hs : ai.a.sym with
      | none => simp [hs] at h
      | some s =>
        simp only [hs] at h
        injection h with h
        subst h
        refine ⟨?_, ?_⟩
        · simp [toBytesLE_length]
        · have := elf_text_displacement_fixups resolve s 1
          simp only [List.length_nil, Nat.zero_add]
          exact this

theorem lea_bounded (ot : Optype) (a b : Operand) (res : EncResult)
    (h : lea ot a b = some res) : Bounded res := by
  unfold lea at h
  split_ifs at h
  · cases ha : a.asMem with
    | none => simp [ha] at h
    | some am =>
      cases hb : b.asReg with
      | none => simp [ha, hb] at h
      | some br =>
        simp only [ha, hb] at h
        split_ifs at h
        · injection h with h
          subst h
          exact sib_result_bounded _ _ _ (by simp)

theorem setcc_bounded (ot : Optype) (cond : Nat) (op : Operand) (res : EncResult)
    (h : setcc ot cond op = some res) : Bounded res := by
  unfold setcc at h
  split_ifs at h
  · cases hr : op.asReg with
    | none => simp [hr] at h
    | some r =>
      simp only [hr] at h
      split_ifs at h
      · injection h with h
        subst h
        refine ⟨?_, ?_⟩ <;> simp

theorem enc_test_bounded (ot : Optype) (a b : Operand) (res : EncResult)
    (h : enc_test ot a b = some res) : Bounded res := by
  unfold enc_test at h
  split_ifs at h
  · cases ha : a.asReg with
    | none => simp [ha] at h
    | some ar =>
      cases hb : b.asReg with
      | none => simp [ha, hb] at h
      | some br =>
        simp only [ha, hb] at h
        split_ifs at h
        · injection h with h
          subst h
          refine ⟨?_, ?_⟩ <;> simp

theorem enc_not_bounded (ot : Optype) (op : Operand) (res : EncResult)
    (h : enc_not ot op = some res) : Bounded res := by
  unfold enc_not at h
  split_ifs at h
  · cases hr : op.asReg with
    | none => simp [hr] at h
    | some r =>
      simp only [hr] at h
      injection h with h
      subst h
      refine ⟨?_, ?_⟩ <;> (try split_ifs) <;> simp

theorem mul_bounded (ot : Optype) (op : Operand) (res : EncResult)
    (h : mul ot op = some res) : Bounded res := by
  unfold mul at h
  cases ot <;> first | exact Option.noConfusion h | skip
  case reg =>
    cases hr : op.asReg with
    | none => simp [hr] at h
    | some r =>
      simp only [hr] at h
      injection h with h
      subst h
      refine ⟨?_, ?_⟩ <;> (try split_ifs) <;> simp
  case mem =>
    cases hm : op.asMem with
    | none => simp [hm] at h
    | some m =>
      simp only [hm] at h
      injection h with h
      subst h
      exact sib_result_bounded _ _ _ (by split_ifs <;> simp)

theorem enc_div_bounded (ot : Optype) (op : Operand) (res : EncResult)
    (h : enc_div ot op = some res) : Bounded res := by
  unfold enc_div at h
  cases ot <;> first | exact Option.noConfusion h | skip
  case reg =>
    cases hr : op.asReg with
    | none => simp [hr] at h
    | some r =>
      simp only [hr] at h
      injection h with h
      subst h
      refine ⟨?_, ?_⟩ <;> (try split_ifs) <;> simp
  case mem =>
    cases hm : op.asMem with
    | none => simp [hm] at h
    | some m =>
      simp only [hm] at h
      injection h with h
      subst h
      exact sib_result_bounded _ _ _ (by split_ifs <;> simp)

theorem basic_register_only_encode_bounded (opcode : Nat) (a b : Registr) :
    Bounded (basic_register_only_encode opcode a b) := by
  unfold basic_register_only_encode
  refine ⟨?_, ?_⟩ <;> (try split_ifs) <;> simp

theorem enc_xor_bounded (ot : Optype) (a b : Operand) (res : EncResult)
    (h : enc_xor ot a b = some res) : Bounded res := by
  unfold enc_xor at h
  split_ifs at h
  · cases ha : a.asReg with
    | none => simp [ha] at h
    | some ar =>
      cases hb : b.asReg with
      | none => simp [ha, hb] at h
      | some br =>
        simp only [ha, hb] at h
        injection h with h
        subst h
        exact basic_register_only_encode_bounded ..

theorem enc_and_bounded (ot : Optype) (a b : Operand) (res : EncResult)
    (h : enc_and ot a b = some res) : Bounded res := by
  unfold enc_and at h
  split_ifs at h
  · cases ha : a.asReg with
    | none => simp [ha] at h
    | some ar =>
      cases hb : b.asReg with
      | none => simp [ha, hb] at h
      | some br =>
        simp only [ha, hb] at h
        injection h with h
        subst h
        exact basic_register_only_encode_bounded ..

theorem enc_or_bounded (ot : Optype) (a b : Operand) (res : EncResult)
    (h : enc_or ot a b = some res) : Bounded res := by
  unfold enc_or at h
  split_ifs at h
  · cases ha : a.asReg with
    | none => simp [ha] at h
    | some ar =>
      cases hb : b.asReg with
      | none => simp [ha, hb] at h
      | some br =>
        simp only [ha, hb] at h
        injection h with h
        subst h
        exact basic_register_only_encode_bounded ..

theorem shl_bounded (ot : Optype) (a b : Operand) (res : EncResult)
    (h : shl ot a b = some res) : Bounded res := by
  unfold shl at h
  split_ifs at h
  · cases ha : a.asReg with
    | none => simp [ha] at h
    | some ar =>
      cases hb : b.asReg with
      | none => simp [ha, hb] at h
      | some br =>
        simp only [ha, hb] at h
        split_ifs at h
        all_goals
          first
            | exact (Option.noConfusion h)
            | (injection h with h
               subst h
               refine ⟨?_, ?_⟩ <;> simp)

theorem shr_bounded (ot : Optype) (a b : Operand) (res : EncResult)
    (h : shr ot a b = some res) : Bounded res := by
  unfold shr at h
  split_ifs at h
  · cases ha : a.asReg with
    | none => simp [ha] at h
    | some ar =>
      cases hb : b.asReg with
      | none => simp [ha, hb] at h
      | some br =>
        simp only [ha, hb] at h
        split_ifs at h
        all_goals
          first
            | exact (Option.noConfusion h)
            | (injection h with h
               subst h
               refine ⟨?_, ?_⟩ <;> simp)

theorem sar_bounded (ot : Optype) (a b : Operand) (res : EncResult)
    (h : sar ot a b = some res) : Bounded res := by
  unfold sar at h
  split_ifs at h
  · cases ha : a.asReg with
    | none => simp [ha] at h
    | some ar =>
      cases hb : b.asReg with
      | none => simp [ha, hb] at h
      | some br =>
        simp only [ha, hb] at h
        split_ifs at h
        all_goals
          first
            | exact (Option.noConfusion h)
            | (injection h with h
               subst h
               refine ⟨?_, ?_⟩ <;> simp)

theorem encode_bounded (resolve : String → Nat → Option Int) (i : Instruction)
    (res : EncResult) (h : encode resolve i = some res) : Bounded res := by
  unfold encode at h
  cases hop : i.opcode <;> simp only [hop] at h
  case add => exact add_bounded _ _ _ _ h
  case not => exact enc_not_bounded _ _ _ h
  case mul => exact mul_bounded _ _ _ h
  case xor => exact enc_xor_bounded _ _ _ _ h
  case div => exact enc_div_bounded _ _ _ h
  case and => exact enc_and_bounded _ _ _ _ h
  case or => exact enc_or_bounded _ _ _ _ h
  case shl => exact shl_bounded _ _ _ _ h
  case shr => exact shr_bounded _ _ _ _ h
  case sar => exact sar_bounded _ _ _ _ h
  case call => exact call_bounded _ _ _ h
  case cmp => exact enc_cmp_bounded _ _ _ _ h
  case mov => exact mov_bounded _ _ _ _ h
  case movsx => exact movsx_bounded _ _ _ _ h
  case movzx => exact movzx_bounded _ _ _ _ h
  case movaps => exact movaps_bounded _ _ _ _ h
  case push => exact push_bounded _ _ _ h
  case sub => exact sub_bounded _ _ _ _ h
  case lea => exact lea_bounded _ _ _ _ h
  case leave =>
      injection h with h
      subst h
      refine ⟨?_, ?_⟩ <;> simp [leaveCode]
  case repMovsq =>
      split_ifs at h
      · injection h with h
        subst h
        refine ⟨?_, ?_⟩ <;> simp [rep_movsq]
  case ret =>
      injection h with h
      subst h
      refine ⟨?_, ?_⟩ <;> simp [retCode]
  case jmp => exact jmp_bounded _ _ _ _ h
  case ja => exact jcc_bounded _ _ _ _ _ h
  case jg => exact jcc_bounded _ _ _ _ _ h
  case jz => exact jcc_bounded _ _ _ _ _ h
  case jae => exact jcc_bounded _ _ _ _ _ h
  case jge => exact jcc_bounded _ _ _ _ _ h
  case setz => exact setcc_bounded _ _ _ _ h
  case seta => exact setcc_bounded _ _ _ _ h
  case setg => exact setcc_bounded _ _ _ _ h
  case setae => exact setcc_bounded _ _ _ _ h
  case setge => exact setcc_bounded _ _ _ _ h
  case test => exact enc_test_bounded _ _ _ _ h
  case unknown =>
      injection h with h
      subst h
      exact nop_bounded

/-! ## Claim theorems -/

theorem align_fst (ms : MemberList) :
    (align_struct_members ms).1 = (layoutMembers ms 0 0).1 := rfl

theorem align_snd (ms : MemberList) :
    (align_struct_members ms).2 =
      padUp (layoutMembers ms 0 0).2.1 (layoutMembers ms 0 0).2.2 := rfl

theorem size_of_struct (ms : MemberList) (s : Nat) : size_of (CType.struct ms s) = s := rfl

theorem type_alignment_struct (ms : MemberList) (s : Nat) :
    type_alignment (CType.struct ms s) = maxAlignment ms := rfl

/-- C5: every struct type built by a sequence of type_add_member calls
(nonempty, all member types with positive alignment, as guaranteed by
the parser rejecting incomplete members) has a size that is a multiple
of its alignment, keeps its members in declaration order, and places
each member at the smallest offset at or past the previous member's end
that is a multiple of the member's own alignment (minimal padding). -/
theorem C5_struct_layout_invariant (l : List (String × CType)) (hne : l ≠ [])
    (hpos : ∀ p ∈ l, 0 < type_alignment p.2) :
    ∃ ms sz, buildStruct l = CType.struct ms sz ∧
      sig ms = l ∧
      size_of (CType.struct ms sz) % type_alignment (CType.struct ms sz) = 0 ∧
      wellLaid ms 0 := by
  refine ⟨(align_struct_members (ofSig l)).1, (align_struct_members (ofSig l)).2,
    buildStruct_eq l, ?_, ?_, ?_⟩
  · rw [align_fst, sig_layoutMembers, sig_ofSig]
  · have hsig1 : sig (align_struct_members (ofSig l)).1 = sig (ofSig l) := by
      rw [align_fst, sig_layoutMembers]
    have hposOf : ∀ p ∈ sig (ofSig l), 0 < type_alignment p.2 := by
      rw [sig_ofSig]; exact hpos
    have hneOf : sig (ofSig l) ≠ [] := by
      rw [sig_ofSig]; exact hne
    have hApos : 0 < maxAlignment (ofSig l) := maxAlignment_pos _ hneOf hposOf
    rw [size_of_struct, type_alignment_struct]
    rw [maxAlignment_sig _ _ hsig1]
    rw [align_snd, layoutMembers_maxa, Nat.zero_max]
    exact padUp_mod _ _ hApos
  · rw [align_fst]
    refine layoutMembers_wellLaid (ofSig l) ?_ 0 0
    rw [sig_ofSig]; exact hpos

/-- C5 witness: the scenario struct {char a; int b; char c}. -/
theorem C5_witness :
    ∃ ms sz,
      buildStruct [("a", charT), ("b", intT), ("c", charT)] = CType.struct ms sz ∧
      sig ms = [("a", charT), ("b", intT), ("c", charT)] ∧
      size_of (CType.struct ms sz) % type_alignment (CType.struct ms sz) = 0 ∧
      wellLaid ms 0 :=
  C5_struct_layout_invariant [("a", charT), ("b", intT), ("c", charT)]
    (List.cons_ne_nil _ _) (by decide)

/-- C1 counterexample: in void f(int, struct {long;long;long;}, int)
the second scalar int is allocated SI (param_int_reg[1]), not DX as the
claim states; memory-classified arguments consume no registers. -/
theorem C1_counterexample :
    argRegisters [intT, S3long, intT] CType.void = [some [DI], none, some [SI]] ∧
    argRegisters [intT, S3long, intT] CType.void ≠ [some [DI], none, some [DX]] ∧
    SI ≠ DX := by
  refine ⟨by decide, by decide, by decide⟩

/-- C1 amended: classify_call classifies the 24-byte struct argument
as Memory (whole, never split), and the two scalar ints take the first
two integer registers DI and SI in left-to-right order. -/
theorem C1_amended :
    (classify_call [intT, S3long, intT] CType.void).1 =
      [([ParamClass.integer], some [0]), ([ParamClass.memory], none),
        ([ParamClass.integer], some [1])] ∧
    argRegisters [intT, S3long, intT] CType.void = [some [DI], none, some [SI]] := by
  constructor <;> decide

/-- C2: sym_alignment evaluated at char[4], an array smaller than 16
bytes: the code returns 16, but type_alignment is 1, contradicting the
claim (and the code's own comment, which restricts the bump to arrays
of at least 16 bytes) — the code never checks the size. -/
theorem C2_sym_alignment_divergence :
    sym_alignment (CType.array charT 4) = 16 ∧
    type_alignment (CType.array charT 4) = 1 ∧
    size_of (CType.array charT 4) = 4 := by
  refine ⟨by decide, by decide, rfl⟩

/-- C3 counterexample: encoding JMP to the unresolved label L produces
E9 FC FF FF FF (the displacement field holds the -4 bias written by the
encoder), not E9 00 00 00 00 as the claim states. -/
theorem C3_counterexample :
    (encode noResolve jmpInstrL).map EncResult.bytes =
      some [0xE9, 0xFC, 0xFF, 0xFF, 0xFF] ∧
    (encode noResolve jmpInstrL).map EncResult.bytes ≠
      some [0xE9, 0x00, 0x00, 0x00, 0x00] := by
  constructor <;> decide

/-- C3 amended: encoding JMP to the unresolved label L produces
E9 FC FF FF FF, records no relocation itself, and arranges one pending
fixup against L at offset current_offset + 1 through the ELF
collaborator's text_displacement hook; the -4 addend is stored in the
displacement field rather than passed to a relocation entry. -/
theorem C3_amended :
    encode noResolve jmpInstrL =
      some ⟨[0xE9, 0xFC, 0xFF, 0xFF, 0xFF], [], [("L", 1)]⟩ := by decide

/-- C4: for every operand pair, the shr and sar builders are the same
function; on an accepted register-register pair (CL source of width 1)
both return a code whose final ModR/M byte is 0xF8 | reg, whose
opcode-extension field (bits 5..3) is /7 because the register encoding
stays in the low three bits. -/
theorem C4_shr_sar_identical :
    (∀ (ot : Optype) (a b : Operand), shr ot a b = sar ot a b) ∧
    (∀ (ra rb : Registr), ra.r = CX → ra.w = 1 →
      ∃ res, shr Optype.regReg (Operand.reg ra) (Operand.reg rb) = some res ∧
        sar Optype.regReg (Operand.reg ra) (Operand.reg rb) = some res ∧
        res.bytes.getLast? = some (0xF8 ||| regEnc rb.r) ∧
        regEnc rb.r < 8 ∧ (∀ x, x < 8 → ((0xF8 ||| x) >>> 3) % 8 = 7)) := by
  constructor
  · intro ot a b
    rfl
  · intro ra rb hcx hw
    refine ⟨⟨(if is_64_bit_reg rb.r || 4 < rb.w then [REX ||| Wb rb.w ||| Bb rb.r] else []) ++
        [0xD2 ||| wbit rb.w, 0xF8 ||| regEnc rb.r], [], []⟩, ?_, ?_, ?_, ?_, ?_⟩
    · simp [shr, Operand.asReg, hcx, hw]
    · simp [sar, Operand.asReg, hcx, hw]
    · split_ifs <;> simp
    · exact Nat.mod_lt _ (by norm_num)
    · decide

/-- C4 witness: SHR/SAR with CL source and AX destination of width 4. -/
theorem C4_witness :
    shr Optype.regReg (Operand.reg ⟨CX, 1⟩) (Operand.reg ⟨AX, 4⟩) =
      sar Optype.regReg (Operand.reg ⟨CX, 1⟩) (Operand.reg ⟨AX, 4⟩) ∧
    ∃ res, shr Optype.regReg (Operand.reg ⟨CX, 1⟩) (Operand.reg ⟨AX, 4⟩) = some res ∧
      sar Optype.regReg (Operand.reg ⟨CX, 1⟩) (Operand.reg ⟨AX, 4⟩) = some res ∧
      res.bytes.getLast? = some (0xF8 ||| regEnc AX) ∧
      regEnc AX < 8 ∧ (∀ x, x < 8 → ((0xF8 ||| x) >>> 3) % 8 = 7) :=
  ⟨C4_shr_sar_identical.1 Optype.regReg (Operand.reg ⟨CX, 1⟩) (Operand.reg ⟨AX, 4⟩),
    C4_shr_sar_identical.2 ⟨CX, 1⟩ ⟨AX, 4⟩ rfl rfl⟩

/-- C6: classify maps {double,double} to [SSE,SSE], the 24-byte long
triple to [Memory], the int triple to [Integer,Integer]; and whenever
the first class is not Memory the slot count equals ceil(size/8)
(integer widths are 1..8 as enforced by type_init's assertion). -/
theorem C6_classify_eightbytes :
    classify S2double = [ParamClass.sse, ParamClass.sse] ∧
    classify S3long = [ParamClass.memory] ∧
    classify S3int = [ParamClass.integer, ParamClass.integer] ∧
    ∀ t : CType,
      ((is_integer t || is_pointer t) = true → 1 ≤ size_of t ∧ size_of t ≤ 8) →
      (classify t).head? ≠ some ParamClass.memory →
      (classify t).length = N_EIGHTBYTES t :=
  ⟨by decide, by decide, by decide, classify_length⟩

/-- C6 witness: the general slot-count invariant applied at the int
triple struct. -/
theorem C6_witness :
    classify S2double = [ParamClass.sse, ParamClass.sse] ∧
    classify S3long = [ParamClass.memory] ∧
    classify S3int = [ParamClass.integer, ParamClass.integer] ∧
    (classify S3int).length = N_EIGHTBYTES S3int :=
  ⟨C6_classify_eightbytes.1, C6_classify_eightbytes.2.1, C6_classify_eightbytes.2.2.1,
    C6_classify_eightbytes.2.2.2 S3int (by decide) (by decide)⟩

/-- C7: the initializer int a[] = {1,2,3} emits exactly the three
stores (0,1), (4,2), (8,3) and completes the symbol's type to a
12-byte int array, i.e. int[3]. -/
theorem C7_array_initializer_completion :
    object_initializer_incomplete_array intT 0 [1, 2, 3] =
      ([(0, 1), (4, 2), (8, 3)], CType.array intT 12) ∧
    size_of (CType.array intT 12) = 12 ∧
    size_of (CType.array intT 12) / size_of intT = 3 := by
  refine ⟨rfl, rfl, rfl⟩

/-- C8: MOV of the 32-bit immediate 0x01020304 into EAX encodes as
B8 04 03 02 01 (five bytes, no REX, no relocation) and into RAX as
48 C7 C0 04 03 02 01 (seven bytes, REX.W + C7 /0). -/
theorem C8_mov_imm_encodings :
    encode noResolve ⟨Opcode.mov, Optype.immReg, immInt 4 0x01020304, regOp AX 4⟩ =
      some ⟨[0xB8, 0x04, 0x03, 0x02, 0x01], [], []⟩ ∧
    encode noResolve ⟨Opcode.mov, Optype.immReg, immInt 4 0x01020304, regOp AX 8⟩ =
      some ⟨[0x48, 0xC7, 0xC0, 0x04, 0x03, 0x02, 0x01], [], []⟩ := by
  constructor <;> decide

/-- C9: whatever instruction record reaches encode (the asserting
builders return none on records their C originals abort on), the
encoded byte list stays within 15 bytes of the 16-byte buffer and at
most one relocation or pending fixup is recorded. -/
theorem C9_encode_bounded (resolve : String → Nat → Option Int) (i : Instruction)
    (res : EncResult) (h : encode resolve i = some res) :
    res.bytes.length ≤ 15 ∧ res.relocs.length + res.fixups.length ≤ 1 :=
  encode_bounded resolve i res h

/-- C9 witness: RET encodes to the single byte C3. -/
theorem C9_witness :
    encode noResolve ⟨Opcode.ret, Optype.none, regOp AX 8, regOp AX 8⟩ = some retCode ∧
    (retCode.bytes.length ≤ 15 ∧ retCode.relocs.length + retCode.fixups.length ≤ 1) :=
  ⟨rfl, C9_encode_bounded noResolve ⟨Opcode.ret, Optype.none, regOp AX 8, regOp AX 8⟩
    retCode rfl⟩

/-- C10: with the token stream exhausted and the definition buffer
empty the declaration loop is skipped and parse returns the all-zero
definition with a null symbol; and since every buffered definition
carries a symbol (push_back_definition stores one), a null symbol in
the returned definition happens exactly when the buffer was empty, so
it is the one observable end-of-input signal. -/
theorem C10_parse_end_of_input (buffer : List CDefinition)
    (hbuf : ∀ d ∈ buffer, d.symbol.isSome) :
    (parse []).1 = emptyDefinition ∧
    emptyDefinition.symbol = none ∧
    ((parse buffer).1.symbol = none ↔ buffer = []) := by
  refine ⟨rfl, rfl, ?_⟩
  cases buffer with
  | nil => simp [parse, emptyDefinition]
  | cons d rest =>
      have hd := hbuf d (by simp)
      show d.symbol = none ↔ d :: rest = []
      constructor
      · intro hnone
        rw [hnone] at hd
        simp at hd
      · intro hfalse
        exact absurd hfalse (List.cons_ne_nil _ _)

/-- C10 witness: a buffer holding one definition with symbol "main". -/
theorem C10_witness :
    (∀ d ∈ [(⟨some "main", [], [], 1⟩ : CDefinition)], d.symbol.isSome) ∧
    ((parse []).1 = emptyDefinition ∧
      emptyDefinition.symbol = none ∧
      ((parse [(⟨some "main", [], [], 1⟩ : CDefinition)]).1.symbol = none ↔
        [(⟨some "main", [], [], 1⟩ : CDefinition)] = [])) :=
  ⟨by decide, C10_parse_end_of_input [⟨some "main", [], [], 1⟩] (by decide)⟩
